import Mathlib

/-!
Verification of the PyExporter selection-and-serialization pipeline.

The development shallowly embeds `my_exporter/exporter.py` (and the flag
mapping of `my_exporter/cli.py`):

* `PathSpec` matchers are opaque external collaborators; they are modelled
  as values of type `Matcher := String → Bool`, optional ones as
  `Option Matcher` (Python `None` becomes `none`).
* JSON documents produced by `json.loads` are modelled by the inductive
  type `Json`.  Number literals are opaque strings: the exporter never
  inspects numeric values, it only moves them around.  Python dicts are
  ordered association lists with unique keys; lookup and assignment act on
  the first occurrence of a key.
* Python exceptions are modelled with `Except PyErr`: a `.error` result is
  an exception escaping the modelled code, `.ok` a normal return.  Only
  the `json.JSONDecodeError` branch is caught inside the two notebook
  functions, which corresponds to the `parse = none` case of the abstract
  parser.
* `json.loads` / `json.dumps` themselves are Python-library externals, so
  the text-level functions are parameterised by an abstract
  `parse : String → Option Json` and `ser : Json → String`.
* The filesystem is a finite tree of named entries (`Entry`); `os.walk`
  and `sorted(os.listdir(..))` are modelled as pure recursions over it.
-/

namespace PyExporter

/-- A compiled pattern matcher (external `pathspec.PathSpec` collaborator):
one operation, `match_file : path → Bool`. -/
def Matcher : Type := String → Bool

/-- Model of `os.path.join(a, b)` for the non-degenerate paths used here. -/
def pjoin (a b : String) : String := a ++ "/" ++ b

/-- Translation of `should_include` (exporter.py lines 96-128): the
`if/elif/elif/else` chain over presence of the two optional matchers. -/
def should_include (path : String) (ignore_spec include_spec : Option Matcher) : Bool :=
  match include_spec, ignore_spec with
  | some inc, none => inc path
  | none, some ign => !(ign path)
  | some inc, some ign => inc path || !(ign path)
  | none, none => true

/-- Python exceptions that the embedded fragments can raise. -/
inductive PyErr where
  | attributeError
  | typeError
deriving DecidableEq

/-- A parsed JSON document (result of `json.loads`).  Objects are ordered
association lists (Python dicts preserve insertion order); numeric
literals are kept opaque because the exporter never inspects them. -/
inductive Json where
  | null
  | bool (b : Bool)
  | num (lit : String)
  | str (s : String)
  | arr (items : List Json)
  | obj (fields : List (String × Json))

/-- First binding of a key in an object's field list (Python dict lookup;
real dicts have unique keys, so first = only). -/
def getKey : List (String × Json) → String → Option Json
  | [], _ => none
  | (k, v) :: rest, key => if k = key then some v else getKey rest key

/-- Python `dict.get(key, dflt)`. -/
def getKeyD (fields : List (String × Json)) (key : String) (dflt : Json) : Json :=
  (getKey fields key).getD dflt

/-- Python `d[key] = v`: replace the binding in place, or append a new one. -/
def setKey : List (String × Json) → String → Json → List (String × Json)
  | [], key, v => [(key, v)]
  | (k, w) :: rest, key, v =>
      if k = key then (key, v) :: rest else (k, w) :: setKey rest key v

/-- Python iteration `for x in v` over a JSON value: lists iterate their
items, strings their characters (as 1-character strings), dicts their
keys; other values raise `TypeError`. -/
def pyIter : Json → Except PyErr (List Json)
  | .arr items => .ok items
  | .str s => .ok (s.data.map (fun c => .str (String.mk [c])))
  | .obj fields => .ok (fields.map (fun kv => .str kv.1))
  | _ => .error .typeError

/-- Python `v == "s"` for a JSON value `v` and a string literal. -/
def isStrEq : Json → String → Bool
  | .str t, s => t = s
  | _, _ => false

/-- Python loop `[f(x) for x in xs]` with exception propagation: the first
raised exception escapes, otherwise all results are collected in order. -/
def mapExcept (f : α → Except PyErr β) : List α → Except PyErr (List β)
  | [] => .ok []
  | a :: rest =>
      match f a with
      | .error e => .error e
      | .ok b =>
          match mapExcept f rest with
          | .error e => .error e
          | .ok bs => .ok (b :: bs)

/-- Loop body of `strip_notebook_outputs` (exporter.py lines 30-33): on a
code cell, clear `outputs` and null `execution_count`; `cell.get` on a
non-dict raises `AttributeError`. -/
def stripCell (cell : Json) : Except PyErr Json :=
  match cell with
  | .obj fields =>
      if isStrEq (getKeyD fields "cell_type" .null) "code" then
        .ok (.obj (setKey (setKey fields "outputs" (.arr [])) "execution_count" .null))
      else .ok (.obj fields)
  | _ => .error .attributeError

/-- Document-level body of `strip_notebook_outputs` (exporter.py lines
29-35): iterate `nb.get('cells', [])`, rewriting code cells in place.
When the `cells` value is a (necessarily empty, or the loop raises) string
or dict, the iteration leaves the document unchanged. -/
def stripDoc (nb : Json) : Except PyErr Json :=
  match nb with
  | .obj fields =>
      match getKey fields "cells" with
      | none => .ok (.obj fields)
      | some cellsVal =>
          match pyIter cellsVal with
          | .error e => .error e
          | .ok cells =>
              match mapExcept stripCell cells with
              | .error e => .error e
              | .ok cells' =>
                  match cellsVal with
                  | .arr _ => .ok (.obj (setKey fields "cells" (.arr cells')))
                  | _ => .ok (.obj fields)
  | _ => .error .attributeError

/-- Translation of `strip_notebook_outputs` (exporter.py lines 12-39),
parameterised by the external JSON codec; `parse = none` is the caught
`json.JSONDecodeError` branch returning the input unchanged. -/
def strip_notebook_outputs (parse : String → Option Json) (ser : Json → String)
    (nb_content : String) : Except PyErr String :=
  match parse nb_content with
  | none => .ok nb_content
  | some nb => (stripDoc nb).map ser

/-- Python `line.rstrip('\n')`. -/
def pyRstripNl (s : String) : String :=
  String.mk ((s.data.reverse.dropWhile (fun c => c = '\n')).reverse)

/-- Python `s.capitalize()` (ASCII case mapping model). -/
def pyCapitalize (s : String) : String :=
  match s.data with
  | [] => ""
  | c :: rest => String.mk (c.toUpper :: rest.map Char.toLower)

/-- Python `"# " + line.rstrip('\n')` for one source line; a non-string
line raises `AttributeError` at `rstrip`. -/
def commentLine (line : Json) : Except PyErr String :=
  match line with
  | .str s => .ok ("# " ++ pyRstripNl s)
  | _ => .error .attributeError

/-- Python `line.rstrip('\n')` for one code source line. -/
def plainLine (line : Json) : Except PyErr String :=
  match line with
  | .str s => .ok (pyRstripNl s)
  | _ => .error .attributeError

/-- Loop body of `convert_nb_to_py` (exporter.py lines 70-90): one cell
becomes a header line, its transformed source lines and a blank line. -/
def convertCellLines (cell : Json) : Except PyErr (List String) :=
  match cell with
  | .obj fields =>
      let cellType := getKeyD fields "cell_type" (.str "")
      let sourceVal := getKeyD fields "source" (.arr [])
      if isStrEq cellType "markdown" then
        match pyIter sourceVal with
        | .error e => .error e
        | .ok src =>
            match mapExcept commentLine src with
            | .error e => .error e
            | .ok body => .ok ("# === Markdown Cell ===" :: body ++ [""])
      else if isStrEq cellType "code" then
        match pyIter sourceVal with
        | .error e => .error e
        | .ok src =>
            match mapExcept plainLine src with
            | .error e => .error e
            | .ok body => .ok ("# === Code Cell ===" :: body ++ [""])
      else
        match cellType with
        | .str ct =>
            match pyIter sourceVal with
            | .error e => .error e
            | .ok src =>
                match mapExcept commentLine src with
                | .error e => .error e
                | .ok body =>
                    .ok (("# === " ++ pyCapitalize ct ++ " Cell (Unsupported) ===")
                      :: body ++ [""])
        | _ => .error .attributeError
  | _ => .error .attributeError

/-- Document-level body of `convert_nb_to_py` (exporter.py lines 69-93). -/
def convertDoc (nb : Json) : Except PyErr String :=
  match nb with
  | .obj fields =>
      match getKey fields "cells" with
      | none => .ok ""
      | some cellsVal =>
          match pyIter cellsVal with
          | .error e => .error e
          | .ok cells =>
              match mapExcept convertCellLines cells with
              | .error e => .error e
              | .ok blocks => .ok (String.intercalate "\n" blocks.flatten)
  | _ => .error .attributeError

/-- Translation of `convert_nb_to_py` (exporter.py lines 42-93),
parameterised by the external JSON parser. -/
def convert_nb_to_py (parse : String → Option Json)
    (nb_stripped_json : String) : Except PyErr String :=
  match parse nb_stripped_json with
  | none => .ok nb_stripped_json
  | some nb => convertDoc nb

/-- Python `str(e)` for the caught exception, used in the bracketed
diagnostic placeholder (message text abstracted to the exception class). -/
def renderPyErr : PyErr → String
  | .attributeError => "AttributeError"
  | .typeError => "TypeError"

/-- The `try/except` wrapper of exporter.py lines 345-373: a raised
exception is rendered in place of content as a bracketed diagnostic. -/
def renderCaught : Except PyErr String → String
  | .ok s => s
  | .error e => "[Non-text or unreadable content: " ++ renderPyErr e ++ "]"

/-- Python `filename.endswith(pat)`. -/
def strEndsWith (s pat : String) : Bool :=
  pat.data.isSuffixOf s.data

/-- Notebook branch of the content dump (exporter.py lines 350-365):
`convert_notebook_to_py` forces strip-then-convert; otherwise
`exclude_notebook_outputs` selects stripping or pass-through. -/
def notebookOut (parse : String → Option Json) (ser : Json → String)
    (exclude_notebook_outputs convert_notebook_to_py : Bool)
    (nb_content : String) : Except PyErr String :=
  if convert_notebook_to_py then
    (strip_notebook_outputs parse ser nb_content).bind (convert_nb_to_py parse)
  else if exclude_notebook_outputs then
    strip_notebook_outputs parse ser nb_content
  else .ok nb_content

/-- Content written for one admitted file (exporter.py lines 345-373):
`.ipynb` files run through the notebook policy inside the local
`try/except`, other files are emitted as read. -/
def emitContent (parse : String → Option Json) (ser : Json → String)
    (exclude_notebook_outputs convert_notebook_to_py : Bool)
    (filename content : String) : String :=
  if strEndsWith filename ".ipynb" then
    renderCaught (notebookOut parse ser exclude_notebook_outputs convert_notebook_to_py content)
  else content

/-- Flag mapping of cli.py lines 67-71: `--export-nb-as-py` forces
`exclude_notebook_outputs = True`, else it is `not --include-nb-outputs`. -/
def cliExcludeNbOutputs (export_nb_as_py include_nb_outputs : Bool) : Bool :=
  if export_nb_as_py then true else !include_nb_outputs

/-- A filesystem node: a regular file with text content, or a directory
with a list of child entries (in filesystem iteration order). -/
inductive Entry where
  | file (name : String) (content : String)
  | dir (name : String) (children : List Entry)

/-- Name of an entry. -/
def Entry.nm : Entry → String
  | .file n _ => n
  | .dir n _ => n

/-- Children of an entry (`[]` for a regular file). -/
def Entry.children : Entry → List Entry
  | .file _ _ => []
  | .dir _ ch => ch

/-- Model of `os.path.isdir`. -/
def Entry.isDir : Entry → Bool
  | .file _ _ => false
  | .dir _ _ => true

theorem Entry.sizeOf_children_lt (e : Entry) (h : e.isDir = true) :
    sizeOf e.children < sizeOf e := by
  cases e with
  | file n c => simp [Entry.isDir] at h
  | dir n ch => simp [Entry.children]

/-- Lexicographic comparison of strings by code point, as Python compares
`str` values. -/
def charsLe : List Char → List Char → Bool
  | [], _ => true
  | _ :: _, [] => false
  | a :: as, b :: bs => if a < b then true else if b < a then false else charsLe as bs

/-- Python string `a <= b`. -/
def strLe (a b : String) : Bool := charsLe a.data b.data

/-- Stable insertion into a sorted list (auxiliary for `sortByName`). -/
def insertByName (e : Entry) : List Entry → List Entry
  | [] => [e]
  | x :: xs => if strLe e.nm x.nm then e :: x :: xs else x :: insertByName e xs

/-- Model of `sorted(os.listdir(root_dir))`: stable sort of the children
by name (exporter.py line 167). -/
def sortByName : List Entry → List Entry
  | [] => []
  | e :: rest => insertByName e (sortByName rest)

theorem mem_insertByName {x e : Entry} {l : List Entry} :
    x ∈ insertByName e l ↔ x = e ∨ x ∈ l := by
  induction l with
  | nil => simp [insertByName]
  | cons y ys ih =>
      by_cases h : strLe e.nm y.nm = true
      · simp [insertByName, h]
      · simp only [insertByName, if_neg h, List.mem_cons, ih]
        tauto

theorem mem_sortByName {x : Entry} {l : List Entry} :
    x ∈ sortByName l ↔ x ∈ l := by
  induction l with
  | nil => simp [sortByName]
  | cons y ys ih => simp [sortByName, mem_insertByName, ih]

/-- Translation of `print_structure` (exporter.py lines 131-208) as the
list of emitted lines.  `os.path.abspath` is the identity here: the model
works with already-absolute paths, and `excl` is the set of absolute
paths excluded from the structure.  Note the order of operations per
entry, faithful to the source: the `exclude_files` check `continue`s
before the connector is chosen, but the connector index `i` ranges over
the pattern-filtered list. -/
def treeLines (ignore_spec include_spec : Option Matcher) (excl : List String) :
    String → String → List Entry → List String
  | dirPath, pfx, children =>
    let entries := (sortByName children).filter
      (fun e => should_include (pjoin dirPath e.nm) ignore_spec include_spec)
    let n := entries.length
    (entries.attach.enum).flatMap (fun p =>
      let path := pjoin dirPath p.2.1.nm
      if excl.contains path then []
      else
        (pfx ++ (if p.1 < n - 1 then "├── " else "└── ") ++ p.2.1.nm) ::
        (if p.2.1.isDir then
          treeLines ignore_spec include_spec excl path
            (pfx ++ (if p.1 < n - 1 then "│   " else "    ")) p.2.1.children
         else []))
termination_by _ _ children => sizeOf children
decreasing_by
  rename_i hdir
  have h1 : p.2.1 ∈ children := mem_sortByName.mp (List.mem_filter.mp p.2.2).1
  have h2 : sizeOf p.2.1 < sizeOf children := List.sizeOf_lt_of_mem h1
  have h3 := Entry.sizeOf_children_lt p.2.1 hdir
  omega

/-- Configuration of one `export_folder_contents` run (exporter.py lines
211-218 arguments plus the loaded matchers and the exclusion set of
absolute rule-file paths). -/
structure DumpCfg where
  parse : String → Option Json
  ser : Json → String
  ignore_spec : Option Matcher
  include_spec : Option Matcher
  excl : List String
  exclude_notebook_outputs : Bool
  convert_notebook_to_py : Bool
  root : String

/-- Absolute path of the directory reached from the root through the given
relative segments. -/
def fullOf (root : String) (segs : List String) : String :=
  segs.foldl pjoin root

/-- In-place pruning of `dirs` (exporter.py lines 316-319): the
subdirectories of the current directory that survive `should_include`. -/
def keptSubdirs (cfg : DumpCfg) (cur : String) (children : List Entry) : List Entry :=
  children.filter
    (fun e => e.isDir && should_include (pjoin cur e.nm) cfg.ignore_spec cfg.include_spec)

/-- Blocks emitted for the plain files of the current directory
(exporter.py lines 322-374): skip the rule files themselves and files
failing `should_include`; otherwise record the relative path (as
segments) and the emitted content. -/
def fileBlocks (cfg : DumpCfg) (segs : List String) (cur : String)
    (children : List Entry) : List (List String × String) :=
  children.filterMap (fun e =>
    match e with
    | .file name content =>
        let fp := pjoin cur name
        if cfg.excl.contains fp then none
        else if !(should_include fp cfg.ignore_spec cfg.include_spec) then none
        else some (segs ++ [name],
          emitContent cfg.parse cfg.ser cfg.exclude_notebook_outputs
            cfg.convert_notebook_to_py name content)
    | .dir _ _ => none)

/-- The `os.walk` content-dump loop (exporter.py lines 314-374) as the
list of emitted `(relative path segments, content)` blocks: the current
directory's admitted files, then the pruned subdirectories in order,
pre-order depth-first. -/
def walkDump (cfg : DumpCfg) : List String → List Entry → List (List String × String)
  | segs, children =>
    fileBlocks cfg segs (fullOf cfg.root segs) children ++
    (keptSubdirs cfg (fullOf cfg.root segs) children).attach.flatMap
      (fun p => walkDump cfg (segs ++ [p.1.nm]) p.1.children)
termination_by segs children => sizeOf children
decreasing_by
  have hf := List.mem_filter.mp p.2
  have h1 : sizeOf p.1 < sizeOf children := List.sizeOf_lt_of_mem hf.1
  have h2 := Entry.sizeOf_children_lt p.1 (Bool.and_eq_true_iff.mp hf.2).1
  omega

/-- The directories the walk of exporter.py lines 314-320 visits
(relative segments): the current one, then recursively the pruned
subdirectory lists. -/
def walkVisited (cfg : DumpCfg) : List String → List Entry → List (List String)
  | segs, children =>
    segs :: (keptSubdirs cfg (fullOf cfg.root segs) children).attach.flatMap
      (fun p => walkVisited cfg (segs ++ [p.1.nm]) p.1.children)
termination_by segs children => sizeOf children
decreasing_by
  have hf := List.mem_filter.mp p.2
  have h1 : sizeOf p.1 < sizeOf children := List.sizeOf_lt_of_mem hf.1
  have h2 := Entry.sizeOf_children_lt p.1 (Bool.and_eq_true_iff.mp hf.2).1
  omega

/-- Text written to the artifact for one content block (exporter.py lines
342, 355, 361, 365, 370, 373-374): the path-delimiter line, the content,
and the verbatim `"\n\n"` separator. -/
def renderBlock (relpath content : String) : String :=
  "===" ++ relpath ++ "===\n" ++ content ++ "\n\n"

/-- The whole content-dump section: concatenation of the rendered blocks
in emission order. -/
def renderDump : List (String × String) → String
  | [] => ""
  | b :: rest => renderBlock b.1 b.2 ++ renderDump rest

/-- Model of `os.path.relpath(filepath, start=root_dir)` from the walk's
relative segments. -/
def relpathOf (segs : List String) : String :=
  String.intercalate "/" segs

/-- Split a character stream into its lines at `'\n'`; a trailing newline
yields a final empty line, and the empty stream is one empty line. -/
def nlSplit : List Char → List (List Char)
  | [] => [[]]
  | c :: rest =>
      let r := nlSplit rest
      if c = '\n' then [] :: r else (c :: r.headD []) :: r.tail

/-- Lines of a string, splitting at `'\n'`. -/
def strLines (s : String) : List String :=
  (nlSplit s.data).map String.mk

/-- Whether `needle` occurs as a contiguous run inside `hay`. -/
def subList [BEq α] (needle hay : List α) : Bool :=
  hay.tails.any needle.isPrefixOf

/-- The fields of an object whose keys are not in `ks`, in order. -/
def fieldsExcept (fields : List (String × Json)) (ks : List String) :
    List (String × Json) :=
  fields.filter (fun kv => !(ks.contains kv.1))

/-- Whether a JSON value is an object (a Python dict). -/
def isObjB : Json → Bool
  | .obj _ => true
  | _ => false

/-- A document shaped like a notebook: a top-level object whose `cells`
value, when present, is an array of objects.  This is the well-formedness
under which the stripping loop runs to completion. -/
def notebookLikeB : Json → Bool
  | .obj fields =>
      match getKey fields "cells" with
      | none => true
      | some (.arr items) => items.all isObjB
      | some _ => false
  | _ => false

/-- Whether a cell object carries `cell_type` equal to the string `code`. -/
def isCodeCellB : Json → Bool
  | .obj fields => isStrEq (getKeyD fields "cell_type" .null) "code"
  | _ => false

/-- Spec relation for one stripped code cell: in the result, `outputs` is
the empty sequence and `execution_count` is the absent value (`null`
models Python `None`), and all other fields — values and order — are
unchanged. -/
def CellStripped : Json → Json → Prop
  | .obj fs, .obj fs' =>
      getKey fs' "outputs" = some (.arr []) ∧
      getKey fs' "execution_count" = some .null ∧
      fieldsExcept fs' ["outputs", "execution_count"] =
        fieldsExcept fs ["outputs", "execution_count"]
  | _, _ => False

/-- Spec relation for one cell after stripping: code cells are stripped,
all other cells are unchanged. -/
def cellRel (c c' : Json) : Prop :=
  if isCodeCellB c then CellStripped c c' else c' = c

/-- Spec relation between a notebook's fields and the stripped result's
fields: same keys in the same order, every non-`cells` field unchanged,
and the cells (when present, an array) pairwise related by `cellRel`. -/
def StripResultSpec (fields fields' : List (String × Json)) : Prop :=
  fields'.map Prod.fst = fields.map Prod.fst ∧
  (∀ k, k ≠ "cells" → getKey fields' k = getKey fields k) ∧
  ((getKey fields "cells" = none ∧ fields' = fields) ∨
   (∃ items items', getKey fields "cells" = some (.arr items) ∧
     getKey fields' "cells" = some (.arr items') ∧
     List.Forall₂ cellRel items items'))

/-- Two cells that agree on everything except possibly the value bound to
the key `outputs`. -/
def CellOutputsEquiv : Json → Json → Prop
  | .obj fs, .obj fs' =>
      List.Forall₂
        (fun kv kv' => kv.1 = kv'.1 ∧ (kv.1 ≠ "outputs" → kv.2 = kv'.2)) fs fs'
  | a, b => a = b

/-- Two `cells` values whose cells pairwise agree except on `outputs`. -/
def CellsOutputsEquiv : Json → Json → Prop
  | .arr cs, .arr cs' => List.Forall₂ CellOutputsEquiv cs cs'
  | a, b => a = b

/-- Two notebook documents that agree on everything except the `outputs`
values inside their cells. -/
def DocOutputsEquiv : Json → Json → Prop
  | .obj fs, .obj fs' =>
      List.Forall₂
        (fun kv kv' => kv.1 = kv'.1 ∧
          (if kv.1 = "cells" then CellsOutputsEquiv kv.2 kv'.2 else kv.2 = kv'.2))
        fs fs'
  | a, b => a = b

/-- The markdown cell of the spec's pseudo-source example. -/
def exampleCellMd : Json :=
  .obj [("cell_type", .str "markdown"), ("source", .arr [.str "# Title"])]

/-- The code cell of the spec's pseudo-source example: source `x = 1`,
one cached output `done`, an execution count. -/
def exampleCellCode : Json :=
  .obj [("cell_type", .str "code"), ("source", .arr [.str "x = 1"]),
        ("outputs", .arr [.str "done"]), ("execution_count", .num "1")]

/-- Fields of the spec's example notebook: one markdown cell and one code
cell, plus opaque metadata. -/
def exampleNbFields : List (String × Json) :=
  [("cells", .arr [exampleCellMd, exampleCellCode]),
   ("metadata", .obj []), ("nbformat", .num "4")]

/-- The spec's example notebook. -/
def exampleNb : Json := .obj exampleNbFields

/-- The example notebook with a different `outputs` value on the code
cell (used to witness outputs-independence). -/
def exampleNbAltOut : Json :=
  .obj [("cells", .arr [exampleCellMd,
          .obj [("cell_type", .str "code"), ("source", .arr [.str "x = 1"]),
                ("outputs", .arr [.str "SECRET", .num "42"]), ("execution_count", .num "1")]]),
        ("metadata", .obj []), ("nbformat", .num "4")]

/-- Spec-side view of one directory level of the tree renderer: the
children sorted lexicographically, keeping those passing the Inclusion
Resolver. -/
def includedSorted (ignore_spec include_spec : Option Matcher) (dirPath : String)
    (children : List Entry) : List Entry :=
  (sortByName children).filter
    (fun e => should_include (pjoin dirPath e.nm) ignore_spec include_spec)

/-- A concrete dump configuration: an ignore matcher rejecting exactly
the path `root/skip`, no include matcher, no exclusion set. -/
def cfgC6 : DumpCfg :=
  ⟨fun _ => none, fun _ => "", some (fun p => p = "root/skip"), none, [], true, false, "root"⟩

/-- A concrete root directory: an ignored subdirectory `skip` containing
a file, next to an admitted file `keep.txt`. -/
def childrenC6 : List Entry :=
  [.dir "skip" [.file "secret.txt" "s"], .file "keep.txt" "hi"]

theorem nlSplit_ne_nil (xs : List Char) : nlSplit xs ≠ [] := by
  cases xs with
  | nil => simp [nlSplit]
  | cons c rest =>
      simp only [nlSplit]
      by_cases h : c = '\n' <;> simp [h]

theorem nlSplit_append (a b : List Char) :
    nlSplit (a ++ '\n' :: b) = nlSplit a ++ nlSplit b := by
  induction a with
  | nil => simp [nlSplit]
  | cons c a ih =>
      by_cases h : c = '\n'
      · simp [nlSplit, h, ih]
      · have h1 := nlSplit_ne_nil a
        simp only [List.cons_append, nlSplit, ih, if_neg h]
        cases hs : nlSplit a with
        | nil => exact absurd hs h1
        | cons l ls => simp [ih, hs]

theorem nlSplit_cons_nl (xs : List Char) : nlSplit ('\n' :: xs) = [] :: nlSplit xs := by
  simp [nlSplit]

theorem nlSplit_append_no_nl {x : List Char} (h : '\n' ∉ x) (y : List Char) :
    nlSplit (x ++ y) = (x ++ (nlSplit y).headD []) :: (nlSplit y).tail := by
  induction x with
  | nil =>
      simp only [List.nil_append]
      cases hs : nlSplit y with
      | nil => exact absurd hs (nlSplit_ne_nil y)
      | cons l ls => simp
  | cons c xs ih =>
      simp only [List.mem_cons, not_or] at h
      have hne : ¬ c = '\n' := Ne.symm h.1
      simp only [List.cons_append, nlSplit, if_neg hne, List.append_eq]
      rw [ih h.2]
      simp

theorem nlSplit_no_nl {xs : List Char} (h : '\n' ∉ xs) : nlSplit xs = [xs] := by
  induction xs with
  | nil => simp [nlSplit]
  | cons c rest ih =>
      simp only [List.mem_cons, not_or] at h
      have := ih h.2
      simp [nlSplit, this, Ne.symm h.1, h.1]

theorem attach_flatMap {α β : Type} (l : List α) (g : α → List β) :
    l.attach.flatMap (fun p => g p.1) = l.flatMap g := by
  rw [List.flatMap, List.flatMap, List.attach_map_val]

theorem attach_enum_flatMap {α β : Type} (l : List α) (g : Nat → α → List β) :
    (l.attach.enum).flatMap (fun p => g p.1 p.2.1) = l.enum.flatMap (fun p => g p.1 p.2) := by
  conv_rhs => rw [← List.map_id l, ← List.attach_map_val l id, List.enum_map, List.flatMap_map]
  simp [Prod.map_fst, Prod.map_snd]

theorem walkDump_eq (cfg : DumpCfg) (segs : List String) (children : List Entry) :
    walkDump cfg segs children =
      fileBlocks cfg segs (fullOf cfg.root segs) children ++
      (keptSubdirs cfg (fullOf cfg.root segs) children).flatMap
        (fun e => walkDump cfg (segs ++ [e.nm]) e.children) := by
  rw [walkDump]
  rw [attach_flatMap (keptSubdirs cfg (fullOf cfg.root segs) children)
    (fun e => walkDump cfg (segs ++ [e.nm]) e.children)]

theorem walkVisited_eq (cfg : DumpCfg) (segs : List String) (children : List Entry) :
    walkVisited cfg segs children =
      segs :: (keptSubdirs cfg (fullOf cfg.root segs) children).flatMap
        (fun e => walkVisited cfg (segs ++ [e.nm]) e.children) := by
  rw [walkVisited]
  rw [attach_flatMap (keptSubdirs cfg (fullOf cfg.root segs) children)
    (fun e => walkVisited cfg (segs ++ [e.nm]) e.children)]

theorem treeLines_eq (ignore_spec include_spec : Option Matcher) (excl : List String)
    (dirPath pfx : String) (children : List Entry) :
    treeLines ignore_spec include_spec excl dirPath pfx children =
      ((sortByName children).filter
        (fun e => should_include (pjoin dirPath e.nm) ignore_spec include_spec)).enum.flatMap
        (fun p =>
          if excl.contains (pjoin dirPath p.2.nm) then []
          else
            (pfx ++ (if p.1 < ((sortByName children).filter
                (fun e => should_include (pjoin dirPath e.nm) ignore_spec include_spec)).length - 1
              then "├── " else "└── ") ++ p.2.nm) ::
            (if p.2.isDir then
              treeLines ignore_spec include_spec excl (pjoin dirPath p.2.nm)
                (pfx ++ (if p.1 < ((sortByName children).filter
                    (fun e => should_include (pjoin dirPath e.nm) ignore_spec include_spec)).length - 1
                  then "│   " else "    ")) p.2.children
             else [])) := by
  rw [treeLines]
  exact attach_enum_flatMap
    ((sortByName children).filter
      (fun e => should_include (pjoin dirPath e.nm) ignore_spec include_spec))
    (fun i e =>
      if excl.contains (pjoin dirPath e.nm) then []
      else
        (pfx ++ (if i < ((sortByName children).filter
            (fun e => should_include (pjoin dirPath e.nm) ignore_spec include_spec)).length - 1
          then "├── " else "└── ") ++ e.nm) ::
        (if e.isDir then
          treeLines ignore_spec include_spec excl (pjoin dirPath e.nm)
            (pfx ++ (if i < ((sortByName children).filter
                (fun e => should_include (pjoin dirPath e.nm) ignore_spec include_spec)).length - 1
              then "│   " else "    ")) e.children
         else []))

theorem getKey_setKey_self (fs : List (String × Json)) (k : String) (v : Json) :
    getKey (setKey fs k v) k = some v := by
  induction fs with
  | nil => simp [setKey, getKey]
  | cons kv rest ih =>
      obtain ⟨a, w⟩ := kv
      by_cases h : a = k
      · simp [setKey, h, getKey]
      · simp [setKey, h, getKey, ih]

theorem getKey_setKey_other (fs : List (String × Json)) (k k' : String) (v : Json)
    (h : k' ≠ k) : getKey (setKey fs k v) k' = getKey fs k' := by
  induction fs with
  | nil => simp [setKey, getKey, Ne.symm h]
  | cons kv rest ih =>
      obtain ⟨a, w⟩ := kv
      by_cases ha : a = k
      · subst ha
        simp [setKey, getKey, Ne.symm h]
      · by_cases ha' : a = k'
        · subst ha'
          simp [setKey, ha, getKey]
        · simp [setKey, ha, getKey, ha', ih]

theorem setKey_eq_of_getKey (fs : List (String × Json)) (k : String) (v : Json)
    (h : getKey fs k = some v) : setKey fs k v = fs := by
  induction fs with
  | nil => simp [getKey] at h
  | cons kv rest ih =>
      obtain ⟨a, w⟩ := kv
      by_cases ha : a = k
      · subst ha
        simp [getKey] at h
        simp [setKey, h]
      · simp [getKey, ha] at h
        simp [setKey, ha, ih h]

theorem map_fst_setKey_of_getKey (fs : List (String × Json)) (k : String) (v : Json)
    (h : getKey fs k ≠ none) : (setKey fs k v).map Prod.fst = fs.map Prod.fst := by
  induction fs with
  | nil => simp [getKey] at h
  | cons kv rest ih =>
      obtain ⟨a, w⟩ := kv
      by_cases ha : a = k
      · subst ha
        simp [setKey]
      · simp [getKey, ha] at h
        simp [setKey, ha, ih h]

theorem fieldsExcept_setKey (fs : List (String × Json)) (ks : List String)
    (k : String) (v : Json) (hk : ks.contains k = true) :
    fieldsExcept (setKey fs k v) ks = fieldsExcept fs ks := by
  have hmem : k ∈ ks := by simpa using hk
  induction fs with
  | nil => simp [setKey, fieldsExcept, hmem]
  | cons kv rest ih =>
      obtain ⟨a, w⟩ := kv
      by_cases ha : a = k
      · subst ha
        simp [setKey, fieldsExcept, hmem, List.filter_cons]
      · simp only [fieldsExcept] at ih ⊢
        simp only [setKey, if_neg ha, List.filter_cons]
        rw [ih]

theorem mapExcept_ok_iff {α β : Type} {f : α → Except PyErr β} {l : List α}
    {l' : List β} :
    mapExcept f l = .ok l' ↔ List.Forall₂ (fun a b => f a = .ok b) l l' := by
  induction l generalizing l' with
  | nil =>
      cases l' <;> simp [mapExcept]
  | cons a rest ih =>
      cases hfa : f a with
      | error e =>
          simp only [mapExcept, hfa]
          cases l' with
          | nil => simp
          | cons b bs => simp [hfa, List.forall₂_cons]
      | ok b =>
          cases hrest : mapExcept f rest with
          | error e =>
              simp only [mapExcept, hfa, hrest]
              cases l' with
              | nil => simp
              | cons b' bs =>
                  simp only [List.forall₂_cons]
                  constructor
                  · intro h
                    exact absurd h (by simp)
                  · rintro ⟨hb, hbs⟩
                    rw [← ih] at hbs
                    rw [hrest] at hbs
                    exact absurd hbs (by simp)
          | ok bs =>
              simp only [mapExcept, hfa, hrest]
              cases l' with
              | nil => simp
              | cons b' bs' =>
                  simp only [List.forall₂_cons, hfa, Except.ok.injEq, List.cons.injEq]
                  constructor
                  · rintro ⟨hb, hbs⟩
                    subst hb
                    subst hbs
                    exact ⟨rfl, ih.mp hrest⟩
                  · rintro ⟨h1, h2⟩
                    have hbs := ih.mpr h2
                    rw [hrest] at hbs
                    simp only [Except.ok.injEq] at hbs
                    exact ⟨h1, hbs⟩

theorem stripCell_obj (fields : List (String × Json)) :
    ∃ fields', stripCell (.obj fields) = .ok (.obj fields') ∧
      cellRel (.obj fields) (.obj fields') := by
  by_cases h : isStrEq (getKeyD fields "cell_type" .null) "code"
  · refine ⟨setKey (setKey fields "outputs" (.arr [])) "execution_count" .null,
      by simp [stripCell, h], ?_⟩
    simp only [cellRel, isCodeCellB, h, if_pos, CellStripped]
    refine ⟨?_, getKey_setKey_self .., ?_⟩
    · rw [getKey_setKey_other _ _ _ _ (by decide)]
      exact getKey_setKey_self ..
    · rw [fieldsExcept_setKey _ _ _ _ (by decide),
        fieldsExcept_setKey _ _ _ _ (by decide)]
  · exact ⟨fields, by simp [stripCell, h], by simp [cellRel, isCodeCellB, h]⟩

theorem mapExcept_stripCell_all_obj {items : List Json}
    (h : ∀ c ∈ items, isObjB c = true) :
    ∃ items', mapExcept stripCell items = .ok items' ∧
      List.Forall₂ cellRel items items' := by
  induction items with
  | nil => exact ⟨[], rfl, List.Forall₂.nil⟩
  | cons c cs ih =>
      have hc := h c (by simp)
      obtain ⟨fields, rfl⟩ : ∃ fs, c = .obj fs := by
        cases c <;> first | exact ⟨_, rfl⟩ | simp [isObjB] at hc
      obtain ⟨fs', h1, h2⟩ := stripCell_obj fields
      obtain ⟨items', h3, h4⟩ := ih (fun x hx => h x (by simp [hx]))
      exact ⟨.obj fs' :: items', by simp [mapExcept, h1, h3], List.Forall₂.cons h2 h4⟩

/-- C3: for a text parsing to a well-formed notebook document, stripping
succeeds and returns the serialisation of a document in which every code
cell's `outputs` is the empty sequence and its `execution_count` is the
absent value (`null`), while all fields other than those two — cell
sources, non-code cells, top-level metadata, and the key order of the
untouched fields — are unchanged (`StripResultSpec`/`cellRel`). -/
theorem claim_C3 (parse : String → Option Json) (ser : Json → String)
    (s : String) (fields : List (String × Json))
    (hp : parse s = some (.obj fields))
    (hlike : notebookLikeB (.obj fields) = true) :
    ∃ fields', stripDoc (.obj fields) = .ok (.obj fields') ∧
      strip_notebook_outputs parse ser s = .ok (ser (.obj fields')) ∧
      StripResultSpec fields fields' := by
  cases hc : getKey fields "cells" with
  | none =>
      refine ⟨fields, by simp [stripDoc, hc], ?_, rfl, fun k _ => rfl, Or.inl ⟨hc, rfl⟩⟩
      simp [strip_notebook_outputs, hp, stripDoc, hc, Except.map]
  | some cellsVal =>
      cases cellsVal with
      | arr items =>
          have hall : ∀ c ∈ items, isObjB c = true := by
            have := hlike
            simp only [notebookLikeB, hc, List.all_eq_true] at this
            exact this
          obtain ⟨items', hm, hf⟩ := mapExcept_stripCell_all_obj hall
          refine ⟨setKey fields "cells" (.arr items'),
            by simp [stripDoc, hc, pyIter, hm], ?_, ?_, ?_,
            Or.inr ⟨items, items', hc, getKey_setKey_self .., hf⟩⟩
          · simp [strip_notebook_outputs, hp, stripDoc, hc, pyIter, hm, Except.map]
          · exact map_fst_setKey_of_getKey _ _ _ (by rw [hc]; simp)
          · exact fun k hk => getKey_setKey_other _ _ _ _ hk
      | null => simp [notebookLikeB, hc] at hlike
      | bool b => simp [notebookLikeB, hc] at hlike
      | num l => simp [notebookLikeB, hc] at hlike
      | str t => simp [notebookLikeB, hc] at hlike
      | obj kvs => simp [notebookLikeB, hc] at hlike

theorem claim_C3_witness :
    (fun _ : String => some exampleNb) "nb.ipynb" = some (.obj exampleNbFields) ∧
    notebookLikeB (.obj exampleNbFields) = true ∧
    (∃ fields', stripDoc (.obj exampleNbFields) = .ok (.obj fields') ∧
      strip_notebook_outputs (fun _ => some exampleNb) (fun _ => "out") "nb.ipynb" =
        .ok "out" ∧
      StripResultSpec exampleNbFields fields') :=
  ⟨rfl, by decide,
    claim_C3 (fun _ => some exampleNb) (fun _ => "out") "nb.ipynb" exampleNbFields
      rfl (by decide)⟩

theorem stripCell_idem {c c' : Json} (h : stripCell c = .ok c') :
    stripCell c' = .ok c' := by
  cases c with
  | obj fields =>
      by_cases hcode : isStrEq (getKeyD fields "cell_type" .null) "code"
      · obtain rfl :
            c' = .obj (setKey (setKey fields "outputs" (.arr [])) "execution_count" .null) := by
          simp [stripCell, hcode] at h
          exact h.symm
        have hct :
            getKeyD (setKey (setKey fields "outputs" (.arr [])) "execution_count" .null)
              "cell_type" .null = getKeyD fields "cell_type" .null := by
          unfold getKeyD
          rw [getKey_setKey_other _ _ _ _ (by decide),
            getKey_setKey_other _ _ _ _ (by decide)]
        have h1 :
            getKey (setKey (setKey fields "outputs" (.arr [])) "execution_count" .null)
              "outputs" = some (.arr []) := by
          rw [getKey_setKey_other _ _ _ _ (by decide)]
          exact getKey_setKey_self ..
        have h3 :
            getKey (setKey (setKey fields "outputs" (.arr [])) "execution_count" .null)
              "execution_count" = some .null := getKey_setKey_self ..
        simp only [stripCell, hct, hcode, if_pos, setKey_eq_of_getKey _ _ _ h1]
        rw [setKey_eq_of_getKey _ _ _ h3]
      · obtain rfl : c' = .obj fields := by
          simp [stripCell, hcode] at h
          exact h.symm
        simp [stripCell, hcode]
  | null => simp [stripCell] at h
  | bool b => simp [stripCell] at h
  | num l => simp [stripCell] at h
  | str t => simp [stripCell] at h
  | arr xs => simp [stripCell] at h

theorem mapExcept_stripCell_idem {l l' : List Json}
    (h : mapExcept stripCell l = .ok l') : mapExcept stripCell l' = .ok l' := by
  apply mapExcept_ok_iff.mpr
  have hf := mapExcept_ok_iff.mp h
  clear h
  induction hf with
  | nil => exact .nil
  | cons ha _ ih => exact .cons (stripCell_idem ha) ih

theorem stripDoc_idem {nb nb' : Json} (h : stripDoc nb = .ok nb') :
    stripDoc nb' = .ok nb' := by
  cases nb with
  | obj fields =>
      cases hc : getKey fields "cells" with
      | none =>
          obtain rfl : nb' = .obj fields := by
            simp [stripDoc, hc] at h
            exact h.symm
          simp [stripDoc, hc]
      | some cellsVal =>
          cases cellsVal with
          | arr items =>
              simp only [stripDoc, hc, pyIter] at h
              cases hm : mapExcept stripCell items with
              | error e => rw [hm] at h; cases h
              | ok items' =>
                  rw [hm] at h
                  simp only [Except.ok.injEq] at h
                  obtain rfl := h.symm
                  have hg : getKey (setKey fields "cells" (.arr items')) "cells" =
                      some (.arr items') := getKey_setKey_self ..
                  simp only [stripDoc, hg, pyIter, mapExcept_stripCell_idem hm]
                  rw [setKey_eq_of_getKey _ _ _ hg]
          | str sv =>
              simp only [stripDoc, hc, pyIter] at h
              cases hsd : sv.data with
              | nil =>
                  rw [hsd] at h
                  simp only [List.map_nil, mapExcept, Except.ok.injEq] at h
                  obtain rfl := h.symm
                  simp [stripDoc, hc, pyIter, hsd, mapExcept]
              | cons ch rest =>
                  rw [hsd] at h
                  simp [mapExcept, stripCell] at h
          | obj kvs =>
              simp only [stripDoc, hc, pyIter] at h
              cases hkv : kvs with
              | nil =>
                  rw [hkv] at h
                  simp only [List.map_nil, mapExcept, Except.ok.injEq] at h
                  obtain rfl := h.symm
                  simp [stripDoc, hc, hkv, pyIter, mapExcept]
              | cons kv rest =>
                  rw [hkv] at h
                  simp [mapExcept, stripCell] at h
          | null => simp [stripDoc, hc, pyIter] at h
          | bool b => simp [stripDoc, hc, pyIter] at h
          | num l => simp [stripDoc, hc, pyIter] at h
  | null => simp [stripDoc] at h
  | bool b => simp [stripDoc] at h
  | num l => simp [stripDoc] at h
  | str t => simp [stripDoc] at h
  | arr xs => simp [stripDoc] at h

/-- C4: `strip_notebook_outputs` is idempotent — composing it with itself
(exceptions propagating through `bind`) gives the same result as one
application, for any text and any JSON codec whose parser inverts the
serialiser on the stripped document (which `json.loads`/`json.dumps`
satisfy). -/
theorem claim_C4 (parse : String → Option Json) (ser : Json → String) (s : String)
    (hrt : ∀ j j', parse s = some j → stripDoc j = .ok j' → parse (ser j') = some j') :
    (strip_notebook_outputs parse ser s).bind (strip_notebook_outputs parse ser) =
      strip_notebook_outputs parse ser s := by
  cases hp : parse s with
  | none => simp [strip_notebook_outputs, hp, Except.bind]
  | some nb =>
      cases hsd : stripDoc nb with
      | error e => simp [strip_notebook_outputs, hp, hsd, Except.map, Except.bind]
      | ok nb' =>
          have hps := hrt nb nb' hp hsd
          simp [strip_notebook_outputs, hp, hsd, Except.map, Except.bind, hps,
            stripDoc_idem hsd]

theorem claim_C4_witness :
    (∀ j j', (fun _ : String => some (Json.obj [])) "x" = some j →
        stripDoc j = .ok j' →
        (fun _ : String => some (Json.obj [])) ((fun _ : Json => "y") j') = some j') ∧
    (strip_notebook_outputs (fun _ => some (.obj [])) (fun _ => "y") "x").bind
        (strip_notebook_outputs (fun _ => some (.obj [])) (fun _ => "y")) =
      strip_notebook_outputs (fun _ => some (.obj [])) (fun _ => "y") "x" := by
  constructor
  · intro j j' h1 h2
    obtain rfl : Json.obj [] = j := by injection h1
    have : Except.ok (Json.obj []) = Except.ok j' := h2
    injection this with h3
    rw [← h3]
  · apply claim_C4
    intro j j' h1 h2
    obtain rfl : Json.obj [] = j := by injection h1
    have : Except.ok (Json.obj []) = Except.ok j' := h2
    injection this with h3
    rw [← h3]

theorem getKey_cellEquiv {fs fs' : List (String × Json)}
    (h : List.Forall₂
      (fun kv kv' => kv.1 = kv'.1 ∧ (kv.1 ≠ "outputs" → kv.2 = kv'.2)) fs fs')
    (k : String) (hk : k ≠ "outputs") : getKey fs k = getKey fs' k := by
  induction h with
  | nil => rfl
  | @cons kv kv' l l' ha ht ih =>
      obtain ⟨a, v⟩ := kv
      obtain ⟨a', v'⟩ := kv'
      obtain ⟨hk1, hv⟩ := ha
      simp only at hk1
      subst hk1
      by_cases hak : a = k
      · subst hak
        simp [getKey, show v = v' from hv hk]
      · simp [getKey, hak, ih]

theorem convertCellLines_equiv {c c' : Json} (h : CellOutputsEquiv c c') :
    convertCellLines c = convertCellLines c' := by
  cases c with
  | obj fs =>
      cases c' with
      | obj fs' =>
          simp only [CellOutputsEquiv] at h
          have h1 : getKeyD fs "cell_type" (.str "") = getKeyD fs' "cell_type" (.str "") := by
            unfold getKeyD
            rw [getKey_cellEquiv h "cell_type" (by decide)]
          have h2 : getKeyD fs "source" (.arr []) = getKeyD fs' "source" (.arr []) := by
            unfold getKeyD
            rw [getKey_cellEquiv h "source" (by decide)]
          simp only [convertCellLines, h1, h2]
      | null => simp [CellOutputsEquiv] at h
      | bool b => simp [CellOutputsEquiv] at h
      | num l => simp [CellOutputsEquiv] at h
      | str t => simp [CellOutputsEquiv] at h
      | arr xs => simp [CellOutputsEquiv] at h
  | null =>
      simp only [CellOutputsEquiv] at h
      rw [h]
  | bool b =>
      simp only [CellOutputsEquiv] at h
      rw [h]
  | num l =>
      simp only [CellOutputsEquiv] at h
      rw [h]
  | str t =>
      simp only [CellOutputsEquiv] at h
      rw [h]
  | arr xs =>
      simp only [CellOutputsEquiv] at h
      rw [h]

theorem mapExcept_convert_equiv {l l' : List Json}
    (h : List.Forall₂ CellOutputsEquiv l l') :
    mapExcept convertCellLines l = mapExcept convertCellLines l' := by
  induction h with
  | nil => rfl
  | cons ha _ ih => simp only [mapExcept, convertCellLines_equiv ha, ih]

theorem getKey_docEquiv_cells {fs fs' : List (String × Json)}
    (h : List.Forall₂
      (fun kv kv' => kv.1 = kv'.1 ∧
        (if kv.1 = "cells" then CellsOutputsEquiv kv.2 kv'.2 else kv.2 = kv'.2))
      fs fs') :
    (getKey fs "cells" = none ∧ getKey fs' "cells" = none) ∨
    (∃ v v', getKey fs "cells" = some v ∧ getKey fs' "cells" = some v' ∧
      CellsOutputsEquiv v v') := by
  induction h with
  | nil => exact Or.inl ⟨rfl, rfl⟩
  | @cons kv kv' l l' ha ht ih =>
      obtain ⟨a, v⟩ := kv
      obtain ⟨a', v'⟩ := kv'
      obtain ⟨hk1, hv⟩ := ha
      simp only at hk1
      subst hk1
      by_cases hak : a = "cells"
      · subst hak
        refine Or.inr ⟨v, v', by simp [getKey], by simp [getKey], ?_⟩
        simpa using hv
      · simpa [getKey, hak] using ih

/-- C8: the pseudo-source conversion is independent of every cell's
`outputs` field — documents agreeing on everything but `outputs` values
convert identically (so no text drawn from outputs can appear in the
result) — and on the spec's example notebook (markdown `# Title`; code
`x = 1` carrying output `done`) the result contains a commented
`# Title` line and a literal `x = 1` line and never contains `done`. -/
theorem claim_C8 (nb nb' : Json) (h : DocOutputsEquiv nb nb') :
    convertDoc nb = convertDoc nb' ∧
    (∃ out, convertDoc exampleNb = .ok out ∧
      subList "# Title".data out.data = true ∧
      subList "x = 1".data out.data = true ∧
      subList "done".data out.data = false) := by
  constructor
  · cases nb with
    | obj fs =>
        cases nb' with
        | obj fs' =>
            simp only [DocOutputsEquiv] at h
            rcases getKey_docEquiv_cells h with ⟨hn, hn'⟩ | ⟨v, v', hv, hv', hvv⟩
            · simp [convertDoc, hn, hn']
            · simp only [convertDoc, hv, hv']
              cases v with
              | arr cs =>
                  cases v' with
                  | arr cs' =>
                      simp only [CellsOutputsEquiv] at hvv
                      simp only [pyIter, mapExcept_convert_equiv hvv]
                  | null => simp [CellsOutputsEquiv] at hvv
                  | bool b => simp [CellsOutputsEquiv] at hvv
                  | num lit => simp [CellsOutputsEquiv] at hvv
                  | str t => simp [CellsOutputsEquiv] at hvv
                  | obj kvs => simp [CellsOutputsEquiv] at hvv
              | null =>
                  simp only [CellsOutputsEquiv] at hvv
                  rw [hvv]
              | bool b =>
                  simp only [CellsOutputsEquiv] at hvv
                  rw [hvv]
              | num lit =>
                  simp only [CellsOutputsEquiv] at hvv
                  rw [hvv]
              | str t =>
                  simp only [CellsOutputsEquiv] at hvv
                  rw [hvv]
              | obj kvs =>
                  simp only [CellsOutputsEquiv] at hvv
                  rw [hvv]
        | null => simp [DocOutputsEquiv] at h
        | bool b => simp [DocOutputsEquiv] at h
        | num lit => simp [DocOutputsEquiv] at h
        | str t => simp [DocOutputsEquiv] at h
        | arr xs => simp [DocOutputsEquiv] at h
    | null =>
        simp only [DocOutputsEquiv] at h
        rw [h]
    | bool b =>
        simp only [DocOutputsEquiv] at h
        rw [h]
    | num lit =>
        simp only [DocOutputsEquiv] at h
        rw [h]
    | str t =>
        simp only [DocOutputsEquiv] at h
        rw [h]
    | arr xs =>
        simp only [DocOutputsEquiv] at h
        rw [h]
  · exact ⟨_, rfl, by decide, by decide, by decide⟩

theorem claim_C8_witness :
    DocOutputsEquiv exampleNb exampleNbAltOut ∧
    (convertDoc exampleNb = convertDoc exampleNbAltOut ∧
      (∃ out, convertDoc exampleNb = .ok out ∧
        subList "# Title".data out.data = true ∧
        subList "x = 1".data out.data = true ∧
        subList "done".data out.data = false)) := by
  have hequiv : DocOutputsEquiv exampleNb exampleNbAltOut := by
    simp only [DocOutputsEquiv, exampleNb, exampleNbFields, exampleNbAltOut,
      exampleCellMd, exampleCellCode]
    refine List.Forall₂.cons ⟨rfl, ?_⟩
      (List.Forall₂.cons ⟨rfl, by simp⟩ (List.Forall₂.cons ⟨rfl, by simp⟩ .nil))
    simp only [if_pos rfl, CellsOutputsEquiv]
    refine List.Forall₂.cons ?_ (List.Forall₂.cons ?_ .nil)
    · simp only [CellOutputsEquiv]
      exact List.Forall₂.cons ⟨rfl, fun _ => rfl⟩
        (List.Forall₂.cons ⟨rfl, fun _ => rfl⟩ .nil)
    · simp only [CellOutputsEquiv]
      refine List.Forall₂.cons ⟨rfl, fun _ => rfl⟩
        (List.Forall₂.cons ⟨rfl, fun _ => rfl⟩
          (List.Forall₂.cons ⟨rfl, ?_⟩
            (List.Forall₂.cons ⟨rfl, fun _ => rfl⟩ .nil)))
      intro hne
      exact absurd rfl hne
  exact ⟨hequiv, claim_C8 exampleNb exampleNbAltOut hequiv⟩

theorem getElem?_of_append_singleton {α : Type} {s : List α} {a : α} {t : List α}
    (h : (s ++ [a]) <+: t) : t[s.length]? = some a := by
  obtain ⟨r, rfl⟩ := h
  rw [List.append_assoc, List.getElem?_append_right (le_refl s.length)]
  simp

theorem walkDump_seg_prefix (cfg : DumpCfg) :
    ∀ (n : Nat) (children : List Entry), sizeOf children ≤ n → ∀ (segs : List String),
      ∀ b ∈ walkDump cfg segs children, segs <+: b.1 ∧ segs.length < b.1.length := by
  intro n
  induction n using Nat.strong_induction_on with
  | _ n ih =>
      intro children hsz segs b hb
      rw [walkDump_eq] at hb
      rcases List.mem_append.mp hb with hfile | hrec
      · obtain ⟨e, he, hfe⟩ := List.mem_filterMap.mp hfile
        cases e with
        | file name content =>
            simp only at hfe
            split_ifs at hfe with h1 h2
            simp only [Option.some.injEq] at hfe
            obtain rfl := hfe.symm
            exact ⟨List.prefix_append .., by simp⟩
        | dir a ch => simp at hfe
      · obtain ⟨e, he, hbe⟩ := List.mem_flatMap.mp hrec
        have hf := List.mem_filter.mp he
        have hdir := (Bool.and_eq_true_iff.mp hf.2).1
        have hlt : sizeOf e.children < sizeOf children :=
          lt_of_lt_of_le (Entry.sizeOf_children_lt e hdir)
            (le_of_lt (List.sizeOf_lt_of_mem hf.1))
        have hres := ih (sizeOf e.children) (by omega) e.children (le_refl _)
          (segs ++ [e.nm]) b hbe
        refine ⟨List.IsPrefix.trans (List.prefix_append ..) hres.1, ?_⟩
        have := hres.2
        simp only [List.length_append, List.length_cons, List.length_nil] at this
        omega

theorem walkVisited_seg_prefix (cfg : DumpCfg) :
    ∀ (n : Nat) (children : List Entry), sizeOf children ≤ n → ∀ (segs : List String),
      ∀ v ∈ walkVisited cfg segs children, segs <+: v := by
  intro n
  induction n using Nat.strong_induction_on with
  | _ n ih =>
      intro children hsz segs v hv
      rw [walkVisited_eq] at hv
      rcases List.mem_cons.mp hv with rfl | hrec
      · exact List.prefix_refl _
      · obtain ⟨e, he, hve⟩ := List.mem_flatMap.mp hrec
        have hf := List.mem_filter.mp he
        have hdir := (Bool.and_eq_true_iff.mp hf.2).1
        have hlt : sizeOf e.children < sizeOf children :=
          lt_of_lt_of_le (Entry.sizeOf_children_lt e hdir)
            (le_of_lt (List.sizeOf_lt_of_mem hf.1))
        have hres := ih (sizeOf e.children) (by omega) e.children (le_refl _)
          (segs ++ [e.nm]) v hve
        exact List.IsPrefix.trans (List.prefix_append ..) hres

/-- C6: a directory rejected by `should_include` during the content-dump
walk is pruned: no emitted block's relative path lies at or below it, and
no directory at or below it is visited — regardless of what its subtree
contains (the walk never consults descendants).  Sibling names are
distinct, as on a real filesystem. -/
theorem claim_C6 (cfg : DumpCfg) (segs : List String) (children : List Entry)
    (dname : String) (dch : List Entry)
    (hmem : Entry.dir dname dch ∈ children)
    (hnodup : (children.map Entry.nm).Nodup)
    (hrej : should_include (pjoin (fullOf cfg.root segs) dname)
      cfg.ignore_spec cfg.include_spec = false) :
    (∀ b ∈ walkDump cfg segs children, (segs ++ [dname]).isPrefixOf b.1 = false) ∧
    (∀ v ∈ walkVisited cfg segs children, (segs ++ [dname]).isPrefixOf v = false) := by
  have hinj := List.inj_on_of_nodup_map hnodup
  constructor
  · intro b hb
    rw [Bool.eq_false_iff]
    intro hpre
    rw [List.isPrefixOf_iff_prefix] at hpre
    rw [walkDump_eq] at hb
    rcases List.mem_append.mp hb with hfile | hrec
    · obtain ⟨e, he, hfe⟩ := List.mem_filterMap.mp hfile
      cases e with
      | file name content =>
          simp only at hfe
          split_ifs at hfe with h1 h2
          simp only [Option.some.injEq] at hfe
          obtain rfl := hfe.symm
          have hlen : (segs ++ [dname]).length = (segs ++ [name]).length := by simp
          have heq := List.IsPrefix.eq_of_length hpre hlen
          have hname : dname = name := by
            have := List.append_cancel_left heq
            simpa using this
          subst hname
          have := hinj hmem he (by simp [Entry.nm])
          cases this
      | dir a ch => simp at hfe
    · obtain ⟨e, he, hbe⟩ := List.mem_flatMap.mp hrec
      have hf := List.mem_filter.mp he
      have hsub := walkDump_seg_prefix cfg (sizeOf e.children) e.children (le_refl _)
        (segs ++ [e.nm]) b hbe
      have hd := getElem?_of_append_singleton hpre
      have hn := getElem?_of_append_singleton hsub.1
      rw [hd] at hn
      simp only [Option.some.injEq] at hn
      have he2 : e = Entry.dir dname dch := by
        apply hinj hf.1 hmem
        simp [Entry.nm, hn]
      have hcond := (Bool.and_eq_true_iff.mp hf.2).2
      rw [he2] at hcond
      simp only [Entry.nm] at hcond
      rw [hrej] at hcond
      cases hcond
  · intro v hv
    rw [Bool.eq_false_iff]
    intro hpre
    rw [List.isPrefixOf_iff_prefix] at hpre
    rw [walkVisited_eq] at hv
    rcases List.mem_cons.mp hv with rfl | hrec
    · have := List.IsPrefix.length_le hpre
      simp at this
    · obtain ⟨e, he, hve⟩ := List.mem_flatMap.mp hrec
      have hf := List.mem_filter.mp he
      have hsub := walkVisited_seg_prefix cfg (sizeOf e.children) e.children (le_refl _)
        (segs ++ [e.nm]) v hve
      have hd := getElem?_of_append_singleton hpre
      have hn := getElem?_of_append_singleton hsub
      rw [hd] at hn
      simp only [Option.some.injEq] at hn
      have he2 : e = Entry.dir dname dch := by
        apply hinj hf.1 hmem
        simp [Entry.nm, hn]
      have hcond := (Bool.and_eq_true_iff.mp hf.2).2
      rw [he2] at hcond
      simp only [Entry.nm] at hcond
      rw [hrej] at hcond
      cases hcond

theorem claim_C6_witness :
    Entry.dir "skip" [.file "secret.txt" "s"] ∈ childrenC6 ∧
    (childrenC6.map Entry.nm).Nodup ∧
    should_include (pjoin (fullOf cfgC6.root []) "skip")
      cfgC6.ignore_spec cfgC6.include_spec = false ∧
    ((∀ b ∈ walkDump cfgC6 [] childrenC6,
        (([] : List String) ++ ["skip"]).isPrefixOf b.1 = false) ∧
      (∀ v ∈ walkVisited cfgC6 [] childrenC6,
        (([] : List String) ++ ["skip"]).isPrefixOf v = false)) :=
  ⟨List.mem_cons_self _ _, by decide, by decide,
    claim_C6 cfgC6 [] childrenC6 "skip" [.file "secret.txt" "s"]
      (List.mem_cons_self _ _) (by decide) (by decide)⟩

/-- C9 (amended): each content block is followed by the verbatim
separator `"\n\n"`.  Line-wise, the dump section is: for each block, its
path-delimiter line, then the content's own lines, then exactly one
added empty line (the trailing `[[]]` is the artifact of the final
newline).  So a content that does not end in a newline is followed by
exactly one blank line before the next delimiter — but a content ending
in a newline contributes a final empty line of its own, giving two blank
lines there (see the counterexample). -/
theorem claim_C9 (blocks : List (String × String))
    (h : ∀ b ∈ blocks, '\n' ∉ b.1.data) :
    nlSplit (renderDump blocks).data =
      blocks.flatMap
        (fun b => ("===" ++ b.1 ++ "===").data :: (nlSplit b.2.data ++ [[]])) ++
      [[]] := by
  induction blocks with
  | nil => simp [renderDump, nlSplit]
  | cons b rest ih =>
      obtain ⟨p, c⟩ := b
      have hp : '\n' ∉ p.data := h (p, c) (List.mem_cons_self ..)
      have hM : '\n' ∉ ("===" ++ p ++ "===").data := by
        simp only [String.data_append, List.mem_append]
        intro hc
        rcases hc with (hc | hc) | hc
        · exact absurd hc (by decide)
        · exact hp hc
        · exact absurd hc (by decide)
      simp only [renderDump, renderBlock, String.data_append, List.append_assoc]
      have hkey : ∀ z : List Char,
          ['=', '=', '='] ++ (p.data ++ (['=', '=', '=', '\n'] ++ z)) =
            ("===" ++ p ++ "===").data ++ ('\n' :: z) := by
        intro z
        simp [String.data_append]
      rw [hkey]
      have hkey2 : ∀ z : List Char, (['\n', '\n'] : List Char) ++ z = '\n' :: '\n' :: z :=
        fun z => rfl
      rw [hkey2]
      rw [nlSplit_append, nlSplit_no_nl hM, nlSplit_append, nlSplit_cons_nl,
        ih (fun b hb => h b (List.mem_cons_of_mem _ hb))]
      simp [String.data_append, List.append_assoc]

theorem claim_C9_witness :
    (∀ b ∈ ([("a.txt", "hi")] : List (String × String)), '\n' ∉ b.1.data) ∧
    nlSplit (renderDump [("a.txt", "hi")]).data =
      ([("a.txt", "hi")] : List (String × String)).flatMap
        (fun b => ("===" ++ b.1 ++ "===").data :: (nlSplit b.2.data ++ [[]])) ++
      [[]] :=
  ⟨by decide, claim_C9 [("a.txt", "hi")] (by decide)⟩

/-- C9 counterexample to the claim as stated: a content block whose
content ends with a newline (`"hi\n"`) is followed by two blank lines
before the next path-delimiter line, not exactly one. -/
theorem claim_C9_counterexample :
    strLines (renderDump [("a.txt", "hi\n"), ("b.txt", "x")]) =
      ["===a.txt===", "hi", "", "", "===b.txt===", "x", "", ""] ∧
    subList ["", "", "===b.txt==="]
      (strLines (renderDump [("a.txt", "hi\n"), ("b.txt", "x")])) = true := by
  constructor <;> decide

/-- C2 (amended): per directory, the renderer sorts the children
lexicographically and drops those failing the Inclusion Resolver; when no
child of the directory lies in the exclusion set, it emits one line per
surviving child — `└── ` exactly for the final survivor, `├── ` for the
others — recursing into subdirectories; and the no-rules example
directory of files `a.txt`, `b.txt` yields `├── a.txt` then `└── b.txt`.
(When a child is in the exclusion set it emits no line but still occupies
its connector position, so the last emitted sibling can keep `├── ` —
see the counterexample.) -/
theorem claim_C2 (ignore_spec include_spec : Option Matcher) (excl : List String)
    (dirPath pfx : String) (children : List Entry)
    (hex : ∀ e ∈ children, excl.contains (pjoin dirPath e.nm) = false) :
    (treeLines ignore_spec include_spec excl dirPath pfx children =
      (includedSorted ignore_spec include_spec dirPath children).enum.flatMap
        (fun p =>
          (pfx ++
            (if p.1 + 1 = (includedSorted ignore_spec include_spec dirPath children).length
             then "└── " else "├── ") ++ p.2.nm) ::
          (if p.2.isDir then
            treeLines ignore_spec include_spec excl (pjoin dirPath p.2.nm)
              (pfx ++
                (if p.1 + 1 = (includedSorted ignore_spec include_spec dirPath children).length
                 then "    " else "│   ")) p.2.children
           else []))) ∧
    treeLines none none [] "r" "" [.file "b.txt" "", .file "a.txt" ""] =
      ["├── a.txt", "└── b.txt"] := by
  constructor
  · rw [treeLines_eq]
    simp only [includedSorted]
    rw [List.flatMap, List.flatMap]
    congr 1
    apply List.map_congr_left
    rintro ⟨i, e⟩ hp
    have hp' : (i, e) ∈ List.enumFrom 0
        ((sortByName children).filter
          (fun e => should_include (pjoin dirPath e.nm) ignore_spec include_spec)) := hp
    obtain ⟨-, hilen, hx⟩ := List.mem_enumFrom hp'
    have he : e ∈ (sortByName children).filter
        (fun e => should_include (pjoin dirPath e.nm) ignore_spec include_spec) := by
      rw [hx]
      exact List.getElem_mem _
    have hech : e ∈ children := mem_sortByName.mp (List.mem_filter.mp he).1
    have hn : i < ((sortByName children).filter
        (fun e => should_include (pjoin dirPath e.nm) ignore_spec include_spec)).length := by
      simpa using hilen
    have hnm : pjoin dirPath e.nm ∉ excl := by simpa using hex e hech
    by_cases hlast : i + 1 = ((sortByName children).filter
        (fun e => should_include (pjoin dirPath e.nm) ignore_spec include_spec)).length
    · have h2 : ¬ i < ((sortByName children).filter
          (fun e => should_include (pjoin dirPath e.nm) ignore_spec include_spec)).length - 1 := by
        omega
      simp [hnm, hlast, h2]
    · have h2 : i < ((sortByName children).filter
          (fun e => should_include (pjoin dirPath e.nm) ignore_spec include_spec)).length - 1 := by
        omega
      simp [hnm, hlast, h2]
  · rw [treeLines_eq]
    simp [sortByName, insertByName, strLe, charsLe, Entry.nm, Entry.isDir, should_include,
      List.filter, List.enum, List.enumFrom, List.flatMap]

theorem claim_C2_witness :
    (∀ e ∈ ([.file "a.txt" "", .file "b.txt" ""] : List Entry),
      ([] : List String).contains (pjoin "q" e.nm) = false) ∧
    ((treeLines none none [] "q" "" [.file "a.txt" "", .file "b.txt" ""] =
      (includedSorted none none "q" [.file "a.txt" "", .file "b.txt" ""]).enum.flatMap
        (fun p =>
          ("" ++
            (if p.1 + 1 = (includedSorted none none "q" [.file "a.txt" "", .file "b.txt" ""]).length
             then "└── " else "├── ") ++ p.2.nm) ::
          (if p.2.isDir then
            treeLines none none [] (pjoin "q" p.2.nm)
              ("" ++
                (if p.1 + 1 = (includedSorted none none "q" [.file "a.txt" "", .file "b.txt" ""]).length
                 then "    " else "│   ")) p.2.children
           else []))) ∧
      treeLines none none [] "r" "" [.file "b.txt" "", .file "a.txt" ""] =
        ["├── a.txt", "└── b.txt"]) :=
  ⟨by decide,
    claim_C2 none none [] "q" "" [.file "a.txt" "", .file "b.txt" ""] (by decide)⟩

/-- C2 counterexample to the claim as stated: with children `a.txt`,
`b.txt` and `b.txt` in the exclusion set, the sole surviving child is
rendered `├── a.txt`, not `└── a.txt` as the claim's connector rule for
the last surviving sibling requires (the connector index is computed
before the exclusion-set drop). -/
theorem claim_C2_counterexample :
    treeLines none none [pjoin "r" "b.txt"] "r" ""
      [.file "a.txt" "", .file "b.txt" ""] = ["├── a.txt"] ∧
    treeLines none none [pjoin "r" "b.txt"] "r" ""
      [.file "a.txt" "", .file "b.txt" ""] ≠ ["└── a.txt"] := by
  have h : treeLines none none [pjoin "r" "b.txt"] "r" ""
      [.file "a.txt" "", .file "b.txt" ""] = ["├── a.txt"] := by
    rw [treeLines_eq]
    simp [sortByName, insertByName, strLe, charsLe, Entry.nm, Entry.isDir, should_include,
      List.filter, List.enum, List.enumFrom, List.flatMap, pjoin]
  refine ⟨h, ?_⟩
  rw [h]
  decide

/-- C1: `should_include` implements exactly the four-case decision table:
no matchers → always true; only include → true iff the include matcher
matches; only ignore → true iff the ignore matcher does not match; both →
true iff the include matcher matches or the ignore matcher does not match
(union semantics, include overrides ignore). -/
theorem claim_C1 (path : String) :
    should_include path none none = true ∧
    (∀ inc : Matcher, should_include path none (some inc) = inc path) ∧
    (∀ ign : Matcher, should_include path (some ign) none = !(ign path)) ∧
    (∀ ign inc : Matcher,
      should_include path (some ign) (some inc) = (inc path || !(ign path))) :=
  ⟨rfl, fun _ => rfl, fun _ => rfl, fun _ _ => rfl⟩

/-- C5: an input on which JSON parsing fails makes both notebook
operations return the input unchanged, with no exception escaping
(the `.ok` result is a normal return). -/
theorem claim_C5 (parse : String → Option Json) (ser : Json → String)
    (s : String) (h : parse s = none) :
    strip_notebook_outputs parse ser s = .ok s ∧
    convert_nb_to_py parse s = .ok s := by
  constructor <;> simp [strip_notebook_outputs, convert_nb_to_py, h]

theorem claim_C5_witness :
    (fun _ : String => (none : Option Json)) "no json here" = none ∧
    (strip_notebook_outputs (fun _ => none) (fun _ => "") "no json here" =
        .ok "no json here" ∧
      convert_nb_to_py (fun _ => none) "no json here" = .ok "no json here") :=
  ⟨rfl, claim_C5 (fun _ => none) (fun _ => "") "no json here" rfl⟩

/-- C7: when conversion to pseudo-source is requested
(`convert_notebook_to_py = true`), the emitted notebook content is
`convert_nb_to_py (strip_notebook_outputs content)` — outputs are always
stripped first — for either value of the exclude-outputs flag; and the
CLI's `--export-nb-as-py` also forces `exclude_notebook_outputs = true`
regardless of `--include-nb-outputs`. -/
theorem claim_C7 (parse : String → Option Json) (ser : Json → String)
    (ex ex' : Bool) (content : String) :
    notebookOut parse ser ex true content =
      (strip_notebook_outputs parse ser content).bind (convert_nb_to_py parse) ∧
    notebookOut parse ser ex true content = notebookOut parse ser ex' true content ∧
    (∀ include_nb_outputs : Bool, cliExcludeNbOutputs true include_nb_outputs = true) :=
  ⟨rfl, rfl, fun _ => rfl⟩

/-- C10: the two notebook operations are not total: on an input parsing
to a JSON value whose top level is not an object (the claim's example
`[]`, modelled as `Json.arr []`), `nb.get` raises `AttributeError`, which
is not caught (only the decode-error branch is guarded), so the functions
raise instead of returning the input unchanged. -/
theorem claim_C10 (parse : String → Option Json) (ser : Json → String)
    (s : String) (h : parse s = some (.arr [])) :
    strip_notebook_outputs parse ser s = .error .attributeError ∧
    convert_nb_to_py parse s = .error .attributeError := by
  constructor <;>
    simp [strip_notebook_outputs, convert_nb_to_py, h, stripDoc, convertDoc, Except.map]

theorem claim_C10_witness :
    (fun _ : String => some (Json.arr [])) "[]" = some (.arr []) ∧
    (strip_notebook_outputs (fun _ => some (.arr [])) (fun _ => "") "[]" =
        .error .attributeError ∧
      convert_nb_to_py (fun _ => some (.arr [])) "[]" = .error .attributeError) :=
  ⟨rfl, claim_C10 (fun _ => some (.arr [])) (fun _ => "") "[]" rfl⟩

end PyExporter
